import Mathlib

/-
Verification of the scenario execution engine of kube-agents-test.

The authoritative implementation modelled here is the most complete draft
variant of the engine, `pkg/engine/engine.go` (value comparison, path lookup,
convergence polling, orchestration), together with the diagnostics collector
`ClusterCollector.Collect`.  External collaborators (dynamic Kubernetes
client, REST mapper, agent manager, clock) are modelled as injected
behaviours; machine time is discrete (seconds).  Go `float64`/`float32`
values are modelled as rationals, which is exact for every value the
test-suite and the claims exercise.
-/

namespace KubeAgents

/-- A Go `interface{}` value as it appears in unstructured Kubernetes
documents and scenario conditions.  Constructors mirror the dynamic types
that `toFloat64` in `pkg/engine/engine.go` distinguishes, plus strings,
booleans, maps and nil. -/
inductive GoVal where
  | vInt (n : Int)
  | vInt32 (n : Int)
  | vInt64 (n : Int)
  | vFloat32 (q : ℚ)
  | vFloat64 (q : ℚ)
  | vNumber (s : String)
  | vString (s : String)
  | vBool (b : Bool)
  | vMap (entries : List (String × GoVal))
  | vNull

/-- Digits of a decimal literal folded into a natural number. -/
def digitsToNat (ds : List Char) : Nat :=
  ds.foldl (fun acc c => acc * 10 + (c.toNat - 48)) 0

/-- Leading sign of a numeric literal: `(negative, remaining characters)`. -/
def splitSign : List Char → Bool × List Char
  | '-' :: rest => (true, rest)
  | '+' :: rest => (false, rest)
  | cs => (false, cs)

/-- Mantissa of a numeric literal (digits with an optional single dot). -/
def parseMantissa (cs : List Char) : Option ℚ :=
  let ip := cs.takeWhile (fun c => c ≠ '.')
  let rest := cs.dropWhile (fun c => c ≠ '.')
  match rest with
  | [] =>
      if ip ≠ [] ∧ ip.all Char.isDigit then some ((digitsToNat ip : ℚ)) else none
  | _ :: fp =>
      if (ip ++ fp) ≠ [] ∧ ip.all Char.isDigit ∧ fp.all Char.isDigit then
        some ((digitsToNat ip : ℚ) + (digitsToNat fp : ℚ) / ((10 : ℚ) ^ fp.length))
      else none

/-- Numeric parsing performed by `json.Number.Float64` (via
`strconv.ParseFloat`): optional sign, digits with optional fraction,
optional decimal exponent. -/
def parseGoNumber (s : String) : Option ℚ :=
  let (neg, cs) := splitSign s.toList
  let mant := cs.takeWhile (fun c => c ≠ 'e' ∧ c ≠ 'E')
  let rest := cs.dropWhile (fun c => c ≠ 'e' ∧ c ≠ 'E')
  let base : Option ℚ := parseMantissa mant
  let scaled : Option ℚ :=
    match rest with
    | [] => base
    | _ :: ex =>
        let (eneg, eds) := splitSign ex
        if eds ≠ [] ∧ eds.all Char.isDigit then
          base.map (fun q =>
            if eneg then q / ((10 : ℚ) ^ digitsToNat eds)
            else q * ((10 : ℚ) ^ digitsToNat eds))
        else none
  scaled.map (fun q => if neg then -q else q)

/-- `toFloat64` from `pkg/engine/engine.go`: normalise any numeric
representation to a common form (`float64` modelled as ℚ).  Non-numeric
values do not normalise. -/
def toFloat64 : GoVal → Option ℚ
  | .vFloat64 q => some q
  | .vFloat32 q => some q
  | .vInt n => some ((n : ℚ))
  | .vInt32 n => some ((n : ℚ))
  | .vInt64 n => some ((n : ℚ))
  | .vNumber s => parseGoNumber s
  | _ => none

/-- Insertion into a sorted list of rendered `key:value` strings (Go's
`fmt` prints map entries in key-sorted order). -/
def insertSortedStr (s : String) : List String → List String
  | [] => [s]
  | t :: rest => if s ≤ t then s :: t :: rest else t :: insertSortedStr s rest

/-- Sort rendered map entries, as Go's `fmt` package does when printing. -/
def sortStrings : List String → List String
  | [] => []
  | s :: rest => insertSortedStr s (sortStrings rest)

/-- Decimal rendering of a rational standing in for a Go float under the
`%v` verb.  Integral values print like integers (Go prints `float64(3)` as
`3`); the non-integral spelling abstracts Go's shortest-round-trip decimal
form and is exercised by no claim. -/
def formatGoFloat (q : ℚ) : String :=
  if q.den = 1 then toString q.num else toString q.num ++ "/" ++ toString q.den

mutual

/-- Go's `fmt.Sprintf` with the `%v` verb, as used by `valuesEqual` and the
mismatch details in `checkExpectation`. -/
def goFormat : GoVal → String
  | .vInt n => toString n
  | .vInt32 n => toString n
  | .vInt64 n => toString n
  | .vFloat32 q => formatGoFloat q
  | .vFloat64 q => formatGoFloat q
  | .vNumber s => s
  | .vString s => s
  | .vBool true => "true"
  | .vBool false => "false"
  | .vMap es => "map[" ++ String.intercalate " " (sortStrings (goFormatEntryList es)) ++ "]"
  | .vNull => "<nil>"

/-- `key:value` rendering of each map entry under `%v`. -/
def goFormatEntryList : List (String × GoVal) → List String
  | [] => []
  | (k, v) :: rest => (k ++ ":" ++ goFormat v) :: goFormatEntryList rest

end

/-- `valuesEqual` from `pkg/engine/engine.go`: convert both sides to
`float64`; if both convert, compare numerically, otherwise fall back to
equality of the `%v` string forms. -/
def valuesEqual (actual expected : GoVal) : Bool :=
  match toFloat64 actual, toFloat64 expected with
  | some af, some ef => af == ef
  | _, _ => goFormat actual == goFormat expected

/-- Result of `lookupPath`, mirroring its Go `(interface{}, bool, error)`
triple: a located value, a not-found outcome (nil error), or the structural
error produced when a non-map value is reached with segments remaining. -/
inductive LookupResult where
  | found (v : GoVal)
  | notFound
  | typeError (part : String) (cur : GoVal)

/-- Go map indexing `m[part]` on an unstructured object. -/
def goMapGet : List (String × GoVal) → String → Option GoVal
  | [], _ => none
  | (k, v) :: rest, key => if k = key then some v else goMapGet rest key

/-- The descent loop of `lookupPath`: at each segment the current value must
be a map (otherwise a structural error), and an absent key terminates with
not-found. -/
def lookupGo : GoVal → List String → LookupResult
  | cur, [] => .found cur
  | cur, part :: rest =>
      match cur with
      | .vMap entries =>
          match goMapGet entries part with
          | some nxt => lookupGo nxt rest
          | none => .notFound
      | _ => .typeError part cur

/-- `strings.TrimPrefix(path, ".")`: remove one leading dot if present. -/
def trimLeadingDot : List Char → List Char
  | '.' :: rest => rest
  | cs => cs

/-- `strings.Split(path, ".")` on the character level: split on every dot;
the empty string yields a single empty segment, as in Go. -/
def splitSegs : List Char → List (List Char)
  | [] => [[]]
  | c :: rest =>
      match splitSegs rest, decide (c = '.') with
      | r, true => [] :: r
      | s :: ss, false => (c :: s) :: ss
      | [], false => [[c]]

/-- `strings.TrimPrefix(path, ".")` followed by `strings.Split(path, ".")`. -/
def pathParts (path : String) : List String :=
  (splitSegs (trimLeadingDot path.toList)).map (fun cs => String.mk cs)

/-- `lookupPath` from `pkg/engine/engine.go`: navigate a nested map by a
dot-separated path like `.spec.replicas`. -/
def lookupPath (obj : List (String × GoVal)) (path : String) : LookupResult :=
  lookupGo (.vMap obj) (pathParts path)

/-- A reference to a Kubernetes resource (`scenario.ResourceRef`). -/
structure ResourceRef where
  apiVersion : String
  kind : String
  name : String
  nspace : String
  deriving DecidableEq

/-- A field-path condition on a resource (`scenario.Condition`). -/
structure Condition where
  path : String
  value : GoVal

/-- A resource plus the conditions it must satisfy
(`scenario.Expectation`). -/
structure Expectation where
  resource : ResourceRef
  conditions : List Condition

/-- The condition loop of `checkExpectation` (`pkg/engine/engine.go`
lines 315 to 323): evaluate every condition against the fetched document,
returning whether all are met plus a detail string on the first mismatch.
A lookup error or a not-found lookup both produce the same `not found`
detail, exactly as the Go source's `if err != nil || !found` branch. -/
def checkConditions (ref : ResourceRef) (doc : List (String × GoVal)) :
    List Condition → Bool × String
  | [] => (true, "")
  | cond :: rest =>
      match lookupPath doc cond.path with
      | .found actual =>
          if valuesEqual actual cond.value then checkConditions ref doc rest
          else (false, ref.kind ++ "/" ++ ref.name ++ " path " ++ cond.path ++
            ": got " ++ goFormat actual ++ ", want " ++ goFormat cond.value)
      | _ =>
          (false, ref.kind ++ "/" ++ ref.name ++ " path " ++ cond.path ++ ": not found")

/-- The resource-store fetch capability (REST mapping plus dynamic `Get`),
injected: a document, or the error text the client produced. -/
def FetchFn : Type := ResourceRef → Except String (List (String × GoVal))

/-- `checkExpectation` from `pkg/engine/engine.go`: fetch the resource and
evaluate all conditions against it.  A fetch failure counts as unmet with a
`getting kind/name` detail, never as a fatal error. -/
def checkExpectation (fetch : FetchFn) (exp : Expectation) : Bool × String :=
  match fetch exp.resource with
  | .error e =>
      (false, "getting " ++ exp.resource.kind ++ "/" ++ exp.resource.name ++ ": " ++ e)
  | .ok doc => checkConditions exp.resource doc exp.conditions

/-- `checkAllExpectations`: expectations are evaluated in order and the
first unmet one short-circuits the tick, its detail captured. -/
def checkAllExpectations (fetch : FetchFn) : List Expectation → Bool × String
  | [] => (true, "")
  | exp :: rest =>
      match checkExpectation fetch exp with
      | (true, _) => checkAllExpectations fetch rest
      | (false, detail) => (false, detail)

/-- The fixed polling interval of `waitForExpectations`
(`time.NewTicker(2 * time.Second)`). -/
def tickInterval : Nat := 2

/-- Outcome of the convergence poller: the relative time at which it
returned and the error (none on success). -/
structure PollOut where
  time : Nat
  error : Option String
  deriving DecidableEq

/-- The timeout error text of `waitForExpectations`: the last observed
mismatch is included whenever one was captured (`ctx.Err()` renders as
`context deadline exceeded`). -/
def mkTimeoutMsg (lastErr : String) : String :=
  if lastErr = "" then "timed out waiting for expectations: context deadline exceeded"
  else "timed out waiting for expectations (last mismatch: " ++ lastErr ++
    "): context deadline exceeded"

/-- The ticking loop of `waitForExpectations`.  `check t` is the outcome of
`checkAllExpectations` at relative time `t`; ticks fire at `k * tick` and
the context's done channel fires once the deadline is reached (ties go to
the done branch).  `fuel` bounds the recursion and is chosen large enough
that the deadline branch always fires first. -/
def pollGo (check : Nat → Bool × String) (tick deadline : Nat) :
    Nat → Nat → String → PollOut
  | 0, _, lastErr => ⟨deadline, some (mkTimeoutMsg lastErr)⟩
  | fuel + 1, k, lastErr =>
      if deadline ≤ k * tick then ⟨deadline, some (mkTimeoutMsg lastErr)⟩
      else
        match check (k * tick) with
        | (true, _) => ⟨k * tick, none⟩
        | (false, e) => pollGo check tick deadline fuel (k + 1) e

/-- `waitForExpectations` from `pkg/engine/engine.go`: check once
immediately before waiting, then re-check on every tick until all
expectations hold or the deadline (relative, in seconds) elapses. -/
def waitForExpectations (check : Nat → Bool × String) (deadline : Nat) : PollOut :=
  match check 0 with
  | (true, _) => ⟨0, none⟩
  | (false, e0) => pollGo check tickInterval deadline (deadline + 1) 1 e0

/-- A mismatch entry of a diagnostics report (`diagnostics.ResourceDiff`). -/
structure ResourceDiff where
  resource : String
  path : String
  expected : GoVal
  actual : GoVal

/-- `diagnostics.Report`: agent logs, namespace events, per-field
mismatches and the collection-error field set when gathering itself
failed. -/
structure Report where
  agentLogs : List (String × String)
  events : List String
  resourceDiffs : List ResourceDiff
  collectionError : String

/-- `diagnostics.Scope`: what to collect diagnostics for. -/
structure Scope where
  nspace : String
  agentNames : List String

/-- A Kubernetes event as listed by the collector. -/
structure EventItem where
  lastTimestamp : String
  kind : String
  name : String
  message : String
  reason : String

/-- The cluster-facing behaviour injected into `ClusterCollector`:
the outcome of client construction (`getClient`), of the per-agent log
fetch (`collectAgentLogs`), and of the namespace event listing. -/
structure CollectEnv where
  clientErr : Option String
  logsFor : String → Except String String
  eventsList : Except String (List EventItem)

/-- The event rendering in `ClusterCollector.Collect`:
`"%s %s/%s: %s (%s)"` over timestamp, kind, name, message, reason. -/
def formatEventItem (ev : EventItem) : String :=
  ev.lastTimestamp ++ " " ++ ev.kind ++ "/" ++ ev.name ++ ": " ++
    ev.message ++ " (" ++ ev.reason ++ ")"

/-- `ClusterCollector.Collect` from the diagnostics package: a failed
client construction is returned as an error; a per-agent log failure is
recorded inline as `error collecting logs: ...`; a failed event listing
sets the report's collection-error field and leaves the events empty. -/
def clusterCollect (env : CollectEnv) (scope : Scope) : Except String Report :=
  match env.clientErr with
  | some e => .error e
  | none =>
      let agentLogs := scope.agentNames.map (fun a =>
        match env.logsFor a with
        | .error err => (a, "error collecting logs: " ++ err)
        | .ok logs => (a, logs))
      match env.eventsList with
      | .error e =>
          .ok { agentLogs := agentLogs, events := [], resourceDiffs := [],
                collectionError := "listing events: " ++ e }
      | .ok items =>
          .ok { agentLogs := agentLogs, events := items.map formatEventItem,
                resourceDiffs := [], collectionError := "" }

/-- `scenario.Setup`: ordered manifest references. -/
structure Setup where
  manifests : List String

/-- `scenario.ResourcePatch`: the patch trigger target and partial spec. -/
structure ResourcePatch where
  apiVersion : String
  kind : String
  name : String
  nspace : String
  spec : Option (List (String × GoVal))

/-- `scenario.Trigger`: currently a single optional patch variant. -/
structure Trigger where
  patch : Option ResourcePatch

/-- `scenario.Scenario` as consumed by `pkg/engine.Engine.Run`: name,
ordered agents, setup, optional trigger, expectations and the convergence
timeout in seconds (0 means unset). -/
structure Scenario where
  name : String
  description : String
  agents : List String
  setup : Setup
  trigger : Option Trigger
  expect : List Expectation
  timeout : Nat

/-- `engine.Result`: the single value a run produces. -/
structure GoResult where
  scenario : String
  passed : Bool
  duration : Nat
  error : Option String
  diagnostics : Option Report

/-- An externally observable action of the engine, in the order it was
performed during a run.  `evStopAll` is the deferred
`AgentManager.StopAll` cleanup. -/
inductive Event where
  | evDeploy (agent : String) (ok : Bool)
  | evStopAll
  | evManifest (m : String)
  | evPatch (kind : String) (name : String)
  | evWait
  | evCollect
  deriving DecidableEq

/-- Behaviour of one injected external operation: how long it takes and
the error it produces on its own (none on success). -/
structure StageOp where
  dur : Nat
  err : Option String

/-- The injected collaborators of `engine.Engine`: client construction,
the agent manager's deploy, the resource store's create-or-update and
patch, the time-indexed fetch used while polling, and the diagnostics
collector (`none` models a nil `Collector`). -/
structure RunEnv where
  ensureClientsErr : Option String
  deployOp : String → StageOp
  manifestOp : String → StageOp
  patchOp : StageOp
  fetchAt : Nat → FetchFn
  collect : Option (Except String Report)

/-- An external call performed under a context deadline `d` at time `now`:
if the operation would run past the deadline the client aborts it with
`context deadline exceeded`. -/
def invoke (d : Nat) (now : Nat) (op : StageOp) : Nat × Option String :=
  if now + op.dur ≤ d then (now + op.dur, op.err)
  else (max now d, some "context deadline exceeded")

/-- The agent deployment loop of `Engine.Run` (step 1): deploy each agent
in order, the first failure halting the sequence with a
`deploying agent name` error. -/
def deployAgents (env : RunEnv) (d : Nat) : List String → Nat → Nat × List Event × Option String
  | [], now => (now, [], none)
  | a :: rest, now =>
      match invoke d now (env.deployOp a) with
      | (now1, some e) =>
          (now1, [Event.evDeploy a false], some ("deploying agent " ++ a ++ ": " ++ e))
      | (now1, none) =>
          match deployAgents env d rest now1 with
          | (now2, evs, res) => (now2, Event.evDeploy a true :: evs, res)

/-- `applySetup` (step 2): apply each manifest in order via the store's
create-or-update contract, the first failure producing an
`applying manifest` error. -/
def applySetup (env : RunEnv) (d : Nat) : List String → Nat → Nat × List Event × Option String
  | [], now => (now, [], none)
  | m :: rest, now =>
      match invoke d now (env.manifestOp m) with
      | (now1, some e) =>
          (now1, [Event.evManifest m], some ("applying manifest " ++ m ++ ": " ++ e))
      | (now1, none) =>
          match applySetup env d rest now1 with
          | (now2, evs, res) => (now2, Event.evManifest m :: evs, res)

/-- `applyTrigger` (step 3): a missing trigger or a trigger without a
patch is a no-op; otherwise the patch is applied via the store, a failure
producing a `patching kind/name` error. -/
def applyTrigger (env : RunEnv) (d : Nat) (trigger : Option Trigger) (now : Nat) :
    Nat × List Event × Option String :=
  match trigger with
  | none => (now, [], none)
  | some t =>
      match t.patch with
      | none => (now, [], none)
      | some p =>
          match invoke d now env.patchOp with
          | (now1, some e) =>
              (now1, [Event.evPatch p.kind p.name],
               some ("patching " ++ p.kind ++ "/" ++ p.name ++ ": " ++ e))
          | (now1, none) => (now1, [Event.evPatch p.kind p.name], none)

/-- `collectDiagnostics` from `pkg/engine/engine.go`: a nil collector
yields no report; a collector error is folded into a report whose
collection-error field carries the message. -/
def collectDiagnostics (env : RunEnv) : Option Report :=
  match env.collect with
  | none => none
  | some (.error e) =>
      some { agentLogs := [], events := [], resourceDiffs := [], collectionError := e }
  | some (.ok r) => some r

/-- The timeout applied by `Engine.Run`: the scenario timeout, defaulting
to 2 minutes when zero. -/
def runTimeout (s : Scenario) : Nat := if s.timeout = 0 then 120 else s.timeout

/-- The deadline of the context created by `context.WithTimeout` at the
start of `Run` (run start is time 0); a parent deadline is honoured if
tighter. -/
def runDeadline (parent : Option Nat) (s : Scenario) : Nat :=
  match parent with
  | none => runTimeout s
  | some pd => min pd (runTimeout s)

/-- `Engine.Run` from `pkg/engine/engine.go`: wrap the whole run in the
timeout context, initialise clients, deploy agents (registering the
deferred `StopAll` only after the loop completes), apply setup, fire the
trigger, poll for the expectations, and collect diagnostics on a polling
failure.  Returns the `Result` plus the ordered trace of external
actions. -/
def Run (env : RunEnv) (parent : Option Nat) (s : Scenario) : GoResult × List Event :=
  match env.ensureClientsErr with
  | some e =>
      (⟨s.name, false, 0, some ("initializing clients: " ++ e), none⟩, [])
  | none =>
      match deployAgents env (runDeadline parent s) s.agents 0 with
      | (now1, devs, some e) => (⟨s.name, false, now1, some e, none⟩, devs)
      | (now1, devs, none) =>
          match applySetup env (runDeadline parent s) s.setup.manifests now1 with
          | (now2, sevs, some e) =>
              (⟨s.name, false, now2, some ("applying setup: " ++ e), none⟩,
               devs ++ sevs ++ [Event.evStopAll])
          | (now2, sevs, none) =>
              match applyTrigger env (runDeadline parent s) s.trigger now2 with
              | (now3, tevs, some e) =>
                  (⟨s.name, false, now3, some ("applying trigger: " ++ e), none⟩,
                   devs ++ sevs ++ tevs ++ [Event.evStopAll])
              | (now3, tevs, none) =>
                  match waitForExpectations
                      (fun t => checkAllExpectations (env.fetchAt (now3 + t)) s.expect)
                      (runDeadline parent s - now3) with
                  | ⟨w, some e⟩ =>
                      (⟨s.name, false, now3 + w, some e, collectDiagnostics env⟩,
                       devs ++ sevs ++ tevs ++ [Event.evWait, Event.evCollect, Event.evStopAll])
                  | ⟨w, none⟩ =>
                      (⟨s.name, true, now3 + w, none, none⟩,
                       devs ++ sevs ++ tevs ++ [Event.evWait, Event.evStopAll])

/-- A traversal of `cur` along `parts` reaches an absent map key before
exhausting its segments (every prefix stays inside maps). -/
def hitsAbsent : GoVal → List String → Bool
  | _, [] => false
  | cur, part :: rest =>
      match cur with
      | .vMap entries =>
          match goMapGet entries part with
          | some nxt => hitsAbsent nxt rest
          | none => true
      | _ => false

/-- A traversal of `cur` along `parts` reaches a non-map value with at
least one segment remaining. -/
def hitsNonMap : GoVal → List String → Bool
  | _, [] => false
  | cur, part :: rest =>
      match cur with
      | .vMap entries =>
          match goMapGet entries part with
          | some nxt => hitsNonMap nxt rest
          | none => false
      | _ => true

theorem lookupGo_absent :
    ∀ (parts : List String) (cur : GoVal), hitsAbsent cur parts = true →
      lookupGo cur parts = .notFound := by
  intro parts
  induction parts with
  | nil => intro cur h; simp [hitsAbsent] at h
  | cons part rest ih =>
      intro cur h
      cases cur with
      | vMap entries =>
          cases hm : goMapGet entries part with
          | some nxt =>
              rw [hitsAbsent, hm] at h
              rw [lookupGo, hm]
              exact ih nxt h
          | none => rw [lookupGo, hm]
      | vInt n => simp [hitsAbsent] at h
      | vInt32 n => simp [hitsAbsent] at h
      | vInt64 n => simp [hitsAbsent] at h
      | vFloat32 q => simp [hitsAbsent] at h
      | vFloat64 q => simp [hitsAbsent] at h
      | vNumber s => simp [hitsAbsent] at h
      | vString s => simp [hitsAbsent] at h
      | vBool b => simp [hitsAbsent] at h
      | vNull => simp [hitsAbsent] at h

theorem lookupGo_nonmap :
    ∀ (parts : List String) (cur : GoVal), hitsNonMap cur parts = true →
      ∃ part c, lookupGo cur parts = .typeError part c := by
  intro parts
  induction parts with
  | nil => intro cur h; simp [hitsNonMap] at h
  | cons part rest ih =>
      intro cur h
      cases cur with
      | vMap entries =>
          cases hm : goMapGet entries part with
          | some nxt =>
              rw [hitsNonMap, hm] at h
              rw [lookupGo, hm]
              exact ih nxt h
          | none => rw [hitsNonMap, hm] at h; exact absurd h (by simp)
      | vInt n => exact ⟨part, .vInt n, rfl⟩
      | vInt32 n => exact ⟨part, .vInt32 n, rfl⟩
      | vInt64 n => exact ⟨part, .vInt64 n, rfl⟩
      | vFloat32 q => exact ⟨part, .vFloat32 q, rfl⟩
      | vFloat64 q => exact ⟨part, .vFloat64 q, rfl⟩
      | vNumber s => exact ⟨part, .vNumber s, rfl⟩
      | vString s => exact ⟨part, .vString s, rfl⟩
      | vBool b => exact ⟨part, .vBool b, rfl⟩
      | vNull => exact ⟨part, .vNull, rfl⟩

/-- C7: for every pair of condition values where both sides normalise to a
number (int, int32, int64, float32, float64 or json.Number), `valuesEqual`
judges equality numerically, so integer 3 equals floating-point 3.0; when
either side does not normalise, it falls back to exact string-form
equality, so "done" does not equal "Done". -/
theorem valuesEqual_numeric_with_string_fallback (a b : GoVal) :
    (∀ x y, toFloat64 a = some x → toFloat64 b = some y →
      (valuesEqual a b = true ↔ x = y)) ∧
    ((toFloat64 a = none ∨ toFloat64 b = none) →
      valuesEqual a b = (goFormat a == goFormat b)) := by
  constructor
  · intro x y hx hy
    unfold valuesEqual
    rw [hx, hy]
    simp
  · intro h
    unfold valuesEqual
    rcases h with h | h
    · rw [h]
    · cases ha : toFloat64 a with
      | none => rfl
      | some x => rw [h]

/-- Witness for C7: integer 3 equals float 3.0 numerically, and the string
fallback distinguishes "done" from "Done". -/
theorem valuesEqual_numeric_with_string_fallback_witness :
    valuesEqual (GoVal.vInt 3) (GoVal.vFloat64 3) = true ∧
    valuesEqual (GoVal.vString "done") (GoVal.vString "Done") = false := by
  constructor
  · exact ((valuesEqual_numeric_with_string_fallback (GoVal.vInt 3)
      (GoVal.vFloat64 3)).1 ((3 : Int) : ℚ) 3 rfl rfl).mpr (by norm_num)
  · have h := (valuesEqual_numeric_with_string_fallback (GoVal.vString "done")
      (GoVal.vString "Done")).2 (Or.inl rfl)
    rw [h]
    decide

/-- C8: for every path whose traversal encounters an absent map key,
`lookupPath` returns the not-found result (no error value), and
`checkExpectation`'s condition loop treats it exactly as an unmet
condition — it reports a mismatch detail instead of raising any fatal
outcome. -/
theorem absent_key_not_found_nonfatal (obj : List (String × GoVal)) (path : String)
    (h : hitsAbsent (.vMap obj) (pathParts path) = true) :
    lookupPath obj path = .notFound ∧
    ∀ (ref : ResourceRef) (v : GoVal) (conds : List Condition),
      checkConditions ref obj ({ path := path, value := v } :: conds) =
        (false, ref.kind ++ "/" ++ ref.name ++ " path " ++ path ++ ": not found") := by
  have hl : lookupPath obj path = .notFound :=
    lookupGo_absent (pathParts path) (.vMap obj) h
  refine ⟨hl, ?_⟩
  intro ref v conds
  rw [checkConditions]
  simp only [hl]

/-- Witness for C8: an absent `.spec.missing` key resolves to not-found
and is reported as an unmet condition. -/
theorem absent_key_not_found_nonfatal_witness :
    lookupPath [("spec", GoVal.vMap [("replicas", GoVal.vInt 3)])] ".spec.missing" =
      .notFound ∧
    checkConditions ⟨"apps/v1", "Deployment", "target", "default"⟩
        [("spec", GoVal.vMap [("replicas", GoVal.vInt 3)])]
        [{ path := ".spec.missing", value := GoVal.vInt 3 }] =
      (false, "Deployment/target path .spec.missing: not found") := by
  have h := absent_key_not_found_nonfatal
    [("spec", GoVal.vMap [("replicas", GoVal.vInt 3)])] ".spec.missing" (by decide)
  exact ⟨h.1, h.2 ⟨"apps/v1", "Deployment", "target", "default"⟩ (GoVal.vInt 3) []⟩

/-- Counterexample for C6: a structural mismatch (path `.a.b` over a
non-map value) and a plain absent key produce the *same* recorded
mismatch detail "not found", even though resolution itself distinguishes
them. -/
theorem structural_mismatch_detail_collapsed :
    lookupPath [("a", GoVal.vInt 1)] ".a.b" = .typeError "b" (GoVal.vInt 1) ∧
    lookupPath [("a", GoVal.vMap [])] ".a.b" = .notFound ∧
    checkConditions ⟨"apps/v1", "Deployment", "target", "default"⟩
        [("a", GoVal.vInt 1)] [{ path := ".a.b", value := GoVal.vInt 5 }] =
      checkConditions ⟨"apps/v1", "Deployment", "target", "default"⟩
        [("a", GoVal.vMap [])] [{ path := ".a.b", value := GoVal.vInt 5 }] ∧
    checkConditions ⟨"apps/v1", "Deployment", "target", "default"⟩
        [("a", GoVal.vInt 1)] [{ path := ".a.b", value := GoVal.vInt 5 }] =
      (false, "Deployment/target path .a.b: not found") :=
  ⟨rfl, rfl, by decide, by decide⟩

/-- C6 (amended): path resolution itself reports a structural mismatch
(`typeError`, carrying the offending segment and value) that is distinct
from the not-found result; however, the mismatch detail recorded for
diagnostics collapses both into the same "not found" text, so the
distinction is not preserved in the recorded detail. -/
theorem structural_mismatch_distinct_at_resolution (obj : List (String × GoVal))
    (path : String) (h : hitsNonMap (.vMap obj) (pathParts path) = true) :
    (∃ part c, lookupPath obj path = .typeError part c) ∧
    lookupPath obj path ≠ .notFound ∧
    ∀ (ref : ResourceRef) (v : GoVal) (conds : List Condition),
      checkConditions ref obj ({ path := path, value := v } :: conds) =
        (false, ref.kind ++ "/" ++ ref.name ++ " path " ++ path ++ ": not found") := by
  obtain ⟨part, c, hl⟩ := lookupGo_nonmap (pathParts path) (.vMap obj) h
  refine ⟨⟨part, c, hl⟩, ?_, ?_⟩
  · rw [show lookupPath obj path = lookupGo (.vMap obj) (pathParts path) from rfl, hl]
    intro hcontra
    exact absurd hcontra (by simp)
  · intro ref v conds
    rw [checkConditions]
    simp only [show lookupPath obj path = LookupResult.typeError part c from hl]

/-- Witness for C6 (amended): `.a.b` over `{a: 1}` is a structural
mismatch, distinct from not-found at resolution, yet recorded as
"not found". -/
theorem structural_mismatch_distinct_at_resolution_witness :
    (∃ part c, lookupPath [("a", GoVal.vInt 1)] ".a.b" = .typeError part c) ∧
    lookupPath [("a", GoVal.vInt 1)] ".a.b" ≠ .notFound ∧
    checkConditions ⟨"apps/v1", "Deployment", "target", "default"⟩
        [("a", GoVal.vInt 1)] [{ path := ".a.b", value := GoVal.vInt 5 }] =
      (false, "Deployment/target path .a.b: not found") := by
  have h := structural_mismatch_distinct_at_resolution [("a", GoVal.vInt 1)] ".a.b" (by decide)
  exact ⟨h.1, h.2.1, h.2.2 ⟨"apps/v1", "Deployment", "target", "default"⟩ (GoVal.vInt 5) []⟩

/-- C4: if every expectation is already satisfied the moment polling
begins, `waitForExpectations` returns success at relative time 0 — before
the first tick interval elapses. -/
theorem immediate_check_returns_without_tick (fetchAt : Nat → FetchFn)
    (exps : List Expectation) (deadline : Nat)
    (h : (checkAllExpectations (fetchAt 0) exps).1 = true) :
    waitForExpectations (fun t => checkAllExpectations (fetchAt t) exps) deadline =
      ⟨0, none⟩ := by
  rcases hc0 : checkAllExpectations (fetchAt 0) exps with ⟨b, e⟩
  rw [hc0] at h
  subst h
  rw [waitForExpectations]
  simp only [hc0]

/-- The target resource of the concrete convergence examples. -/
def refTarget : ResourceRef := ⟨"apps/v1", "Deployment", "target", "default"⟩

/-- A deployment document whose spec replica count stays at 3. -/
def stuckDoc : List (String × GoVal) :=
  [("spec", GoVal.vMap [("replicas", GoVal.vInt64 3)])]

/-- A time-independent store: every fetch yields `stuckDoc`. -/
def fetchStuck : Nat → FetchFn := fun _ _ => .ok stuckDoc

/-- The expectation that `.spec.replicas` equals `n`. -/
def expReplicas (n : Int) : List Expectation :=
  [⟨refTarget, [{ path := ".spec.replicas", value := GoVal.vInt n }]⟩]

/-- Witness for C4: a document already matching its expectation converges
at time 0. -/
theorem immediate_check_returns_without_tick_witness :
    waitForExpectations
      (fun t => checkAllExpectations (fetchStuck t) (expReplicas 3)) 30 = ⟨0, none⟩ :=
  immediate_check_returns_without_tick fetchStuck (expReplicas 3) 30 (by decide)

theorem pollGo_never_met (check : Nat → Bool × String) (tick deadline : Nat)
    (hall : ∀ t, t < deadline → (check t).1 = false) :
    ∀ (fuel k : Nat) (e : String), deadline ≤ (k + fuel) * tick →
      pollGo check tick deadline fuel k e =
        ⟨deadline, some (mkTimeoutMsg
          (if deadline ≤ k * tick then e
           else (check (tick * ((deadline - 1) / tick))).2))⟩ := by
  intro fuel
  induction fuel with
  | zero =>
      intro k e hk
      rw [Nat.add_zero] at hk
      rw [pollGo, if_pos hk]
  | succ fuel ih =>
      intro k e hk
      by_cases hdk : deadline ≤ k * tick
      · rw [pollGo, if_pos hdk, if_pos hdk]
      · have hklt : k * tick < deadline := Nat.lt_of_not_le hdk
        rw [pollGo, if_neg hdk]
        rcases hcheck : check (k * tick) with ⟨b, e2⟩
        have hb : b = false := by
          have hc := hall (k * tick) hklt
          rw [hcheck] at hc
          exact hc
        subst hb
        have hk2 : deadline ≤ (k + 1 + fuel) * tick := by
          rw [show k + 1 + fuel = k + (fuel + 1) by omega]
          exact hk
        show pollGo check tick deadline fuel (k + 1) e2 = _
        rw [ih (k + 1) e2 hk2, if_neg hdk]
        by_cases h2 : deadline ≤ (k + 1) * tick
        · rw [if_pos h2]
          have hdpos : 0 < deadline := Nat.lt_of_le_of_lt (Nat.zero_le _) hklt
          have hdiv : (deadline - 1) / tick = k :=
            Nat.div_eq_of_lt_le (Nat.le_pred_of_lt hklt)
              (Nat.lt_of_lt_of_le (Nat.pred_lt (Nat.pos_iff_ne_zero.mp hdpos)) h2)
          rw [hdiv, Nat.mul_comm, hcheck]
        · rw [if_neg h2]

/-- C5: when no set of expectations ever becomes satisfied,
`waitForExpectations` fails with a timeout no later than one tick interval
past the deadline, and whenever a mismatch detail was observed on the most
recent unmet check, the timeout error text includes it. -/
theorem poll_timeout_bounded_with_last_mismatch (fetchAt : Nat → FetchFn)
    (exps : List Expectation) (deadline : Nat)
    (hall : ∀ t, t ≤ deadline → (checkAllExpectations (fetchAt t) exps).1 = false) :
    (waitForExpectations (fun t => checkAllExpectations (fetchAt t) exps) deadline).time
        ≤ deadline + tickInterval ∧
    (waitForExpectations (fun t => checkAllExpectations (fetchAt t) exps) deadline).error
      = some (mkTimeoutMsg
          (checkAllExpectations
            (fetchAt (tickInterval * ((deadline - 1) / tickInterval))) exps).2) ∧
    ((checkAllExpectations
        (fetchAt (tickInterval * ((deadline - 1) / tickInterval))) exps).2 ≠ "" →
      (waitForExpectations (fun t => checkAllExpectations (fetchAt t) exps) deadline).error
        = some ("timed out waiting for expectations (last mismatch: " ++
            (checkAllExpectations
              (fetchAt (tickInterval * ((deadline - 1) / tickInterval))) exps).2 ++
            "): context deadline exceeded")) := by
  rcases hc0 : checkAllExpectations (fetchAt 0) exps with ⟨b, e0⟩
  have hb : b = false := by
    have h := hall 0 (Nat.zero_le _)
    rw [hc0] at h
    exact h
  subst hb
  have hrun : waitForExpectations (fun t => checkAllExpectations (fetchAt t) exps) deadline
      = ⟨deadline, some (mkTimeoutMsg
          (checkAllExpectations
            (fetchAt (tickInterval * ((deadline - 1) / tickInterval))) exps).2)⟩ := by
    rw [waitForExpectations]
    simp only [hc0]
    rw [pollGo_never_met (fun t => checkAllExpectations (fetchAt t) exps)
      tickInterval deadline (fun t ht => hall t (Nat.le_of_lt ht)) (deadline + 1) 1 e0
      (by rw [show tickInterval = 2 from rfl]; omega)]
    by_cases h1 : deadline ≤ 1 * tickInterval
    · rw [if_pos h1]
      have hdiv : (deadline - 1) / tickInterval = 0 := by
        apply Nat.div_eq_of_lt
        rw [show tickInterval = 2 from rfl] at h1 ⊢
        omega
      rw [hdiv, Nat.mul_zero, hc0]
    · rw [if_neg h1]
  rw [hrun]
  refine ⟨by simp, rfl, ?_⟩
  intro hne
  rw [mkTimeoutMsg, if_neg hne]

/-- Witness for C5: a deployment stuck at 3 replicas against an expectation
of 5 times out at a 30-second deadline with the last mismatch reported. -/
theorem poll_timeout_bounded_with_last_mismatch_witness :
    (waitForExpectations
      (fun t => checkAllExpectations (fetchStuck t) (expReplicas 5)) 30).time ≤ 32 ∧
    (waitForExpectations
      (fun t => checkAllExpectations (fetchStuck t) (expReplicas 5)) 30).error =
      some ("timed out waiting for expectations (last mismatch: " ++
        "Deployment/target path .spec.replicas: got 3, want 5" ++
        "): context deadline exceeded") := by
  have h := poll_timeout_bounded_with_last_mismatch fetchStuck (expReplicas 5) 30
    (fun t _ =>
      (by decide : (checkAllExpectations (fetchStuck 0) (expReplicas 5)).1 = false))
  refine ⟨h.1, ?_⟩
  rw [h.2.2 (by decide)]
  decide

/-- Whether a trace event is an agent deployment. -/
def Event.isDeploy : Event → Bool
  | .evDeploy _ _ => true
  | _ => false

/-- Whether a trace event is a setup-manifest application. -/
def Event.isManifest : Event → Bool
  | .evManifest _ => true
  | _ => false

theorem deployAgents_events_deploy (env : RunEnv) (d : Nat) :
    ∀ (names : List String) (now : Nat) (e : Event),
      e ∈ (deployAgents env d names now).2.1 → e.isDeploy = true := by
  intro names
  induction names with
  | nil => intro now e he; simp [deployAgents] at he
  | cons a rest ih =>
      intro now e he
      rw [deployAgents] at he
      rcases hinv : invoke d now (env.deployOp a) with ⟨now1, r⟩
      rw [hinv] at he
      cases r with
      | some e1 =>
          simp at he
          rw [he]
          rfl
      | none =>
          dsimp only at he
          rcases hrec : deployAgents env d rest now1 with ⟨now2, evs, res⟩
          rw [hrec] at he
          simp at he
          rcases he with he | he
          · rw [he]; rfl
          · exact ih now1 e (by rw [hrec]; exact he)

theorem applySetup_events_manifest (env : RunEnv) (d : Nat) :
    ∀ (ms : List String) (now : Nat) (e : Event),
      e ∈ (applySetup env d ms now).2.1 → e.isManifest = true := by
  intro ms
  induction ms with
  | nil => intro now e he; simp [applySetup] at he
  | cons m rest ih =>
      intro now e he
      rw [applySetup] at he
      rcases hinv : invoke d now (env.manifestOp m) with ⟨now1, r⟩
      rw [hinv] at he
      cases r with
      | some e1 =>
          simp at he
          rw [he]
          rfl
      | none =>
          dsimp only at he
          rcases hrec : applySetup env d rest now1 with ⟨now2, evs, res⟩
          rw [hrec] at he
          simp at he
          rcases he with he | he
          · rw [he]; rfl
          · exact ih now1 e (by rw [hrec]; exact he)

theorem applyTrigger_events_patch (env : RunEnv) (d : Nat) (trigger : Option Trigger)
    (now : Nat) :
    ∀ e ∈ (applyTrigger env d trigger now).2.1,
      e.isDeploy = false ∧ e.isManifest = false := by
  intro e he
  unfold applyTrigger at he
  rcases trigger with _ | t
  · simp at he
  · dsimp only at he
    rcases hpp : t.patch with _ | p
    · rw [hpp] at he; simp at he
    · rw [hpp] at he
      dsimp only at he
      rcases hinv : invoke d now env.patchOp with ⟨now1, r⟩
      rw [hinv] at he
      cases r with
      | some e1 => simp at he; rw [he]; exact ⟨rfl, rfl⟩
      | none => simp at he; rw [he]; exact ⟨rfl, rfl⟩

/-- C3 (amended): within any run of `pkg/engine`'s `Engine.Run`, the trace
decomposes into the agent deployments, then the setup-manifest
applications, then events that are neither: agent deployment always comes
first, and the application of setup manifests never precedes it. -/
theorem run_deployment_precedes_setup (env : RunEnv) (parent : Option Nat) (s : Scenario) :
    ∃ t1 t2 t3, (Run env parent s).2 = t1 ++ (t2 ++ t3) ∧
      (∀ e ∈ t1, e.isDeploy = true) ∧
      (∀ e ∈ t2, e.isManifest = true) ∧
      (∀ e ∈ t3, e.isDeploy = false ∧ e.isManifest = false) := by
  unfold Run
  cases hce : env.ensureClientsErr with
  | some e => exact ⟨[], [], [], rfl, by simp, by simp, by simp⟩
  | none =>
      dsimp only
      rcases hda : deployAgents env (runDeadline parent s) s.agents 0 with ⟨now1, devs, dres⟩
      have hdevs : ∀ e ∈ devs, e.isDeploy = true := fun e he =>
        deployAgents_events_deploy env (runDeadline parent s) s.agents 0 e
          (by rw [hda]; exact he)
      cases dres with
      | some e => exact ⟨devs, [], [], by simp, hdevs, by simp, by simp⟩
      | none =>
          dsimp only
          rcases hsa : applySetup env (runDeadline parent s) s.setup.manifests now1
            with ⟨now2, sevs, sres⟩
          have hsevs : ∀ e ∈ sevs, e.isManifest = true := fun e he =>
            applySetup_events_manifest env (runDeadline parent s) s.setup.manifests now1 e
              (by rw [hsa]; exact he)
          cases sres with
          | some e =>
              refine ⟨devs, sevs, [Event.evStopAll], by simp, hdevs, hsevs, ?_⟩
              intro e he
              simp at he
              rw [he]
              exact ⟨rfl, rfl⟩
          | none =>
              dsimp only
              rcases hta : applyTrigger env (runDeadline parent s) s.trigger now2
                with ⟨now3, tevs, tres⟩
              have htevs : ∀ e ∈ tevs, e.isDeploy = false ∧ e.isManifest = false :=
                fun e he =>
                  applyTrigger_events_patch env (runDeadline parent s) s.trigger now2 e
                    (by rw [hta]; exact he)
              cases tres with
              | some e =>
                  refine ⟨devs, sevs, tevs ++ [Event.evStopAll], by simp, hdevs, hsevs, ?_⟩
                  intro e he
                  rcases List.mem_append.mp he with he | he
                  · exact htevs e he
                  · simp at he; rw [he]; exact ⟨rfl, rfl⟩
              | none =>
                  dsimp only
                  rcases hw : waitForExpectations
                      (fun t => checkAllExpectations (env.fetchAt (now3 + t)) s.expect)
                      (runDeadline parent s - now3) with ⟨w, werr⟩
                  cases werr with
                  | some e =>
                      refine ⟨devs, sevs,
                        tevs ++ [Event.evWait, Event.evCollect, Event.evStopAll],
                        by simp, hdevs, hsevs, ?_⟩
                      intro e he
                      rcases List.mem_append.mp he with he | he
                      · exact htevs e he
                      · simp at he
                        rcases he with he | he | he <;> (rw [he]; exact ⟨rfl, rfl⟩)
                  | none =>
                      refine ⟨devs, sevs, tevs ++ [Event.evWait, Event.evStopAll],
                        by simp, hdevs, hsevs, ?_⟩
                      intro e he
                      rcases List.mem_append.mp he with he | he
                      · exact htevs e he
                      · simp at he
                        rcases he with he | he <;> (rw [he]; exact ⟨rfl, rfl⟩)

/-- C10: on every exit path of `Engine.Run`, the returned result is marked
passed exactly when both its error and its diagnostics report are unset. -/
theorem passed_iff_no_error_and_no_diagnostics (env : RunEnv) (parent : Option Nat)
    (s : Scenario) :
    (Run env parent s).1.passed = true ↔
      ((Run env parent s).1.error = none ∧ (Run env parent s).1.diagnostics = none) := by
  unfold Run
  cases env.ensureClientsErr with
  | some e => simp
  | none =>
      dsimp only
      rcases deployAgents env (runDeadline parent s) s.agents 0 with ⟨now1, devs, dres⟩
      cases dres with
      | some e => simp
      | none =>
          dsimp only
          rcases applySetup env (runDeadline parent s) s.setup.manifests now1
            with ⟨now2, sevs, sres⟩
          cases sres with
          | some e => simp
          | none =>
              dsimp only
              rcases applyTrigger env (runDeadline parent s) s.trigger now2
                with ⟨now3, tevs, tres⟩
              cases tres with
              | some e => simp
              | none =>
                  dsimp only
                  rcases waitForExpectations
                      (fun t => checkAllExpectations (env.fetchAt (now3 + t)) s.expect)
                      (runDeadline parent s - now3) with ⟨w, werr⟩
                  cases werr with
                  | some e => simp
                  | none => simp

/-- An agent manager in which agent "b" fails to deploy while every other
operation succeeds instantly. -/
def envDeployFail : RunEnv where
  ensureClientsErr := none
  deployOp := fun a => if a = "b" then ⟨0, some "boom"⟩ else ⟨0, none⟩
  manifestOp := fun _ => ⟨0, none⟩
  patchOp := ⟨0, none⟩
  fetchAt := fun _ _ => .error "not found"
  collect := none

/-- A two-agent scenario whose second agent fails to deploy. -/
def sDeployFail : Scenario where
  name := "deploy-fail"
  description := ""
  agents := ["a", "b"]
  setup := ⟨[]⟩
  trigger := none
  expect := []
  timeout := 10

/-- Counterexample for C1: when agent "b" fails to deploy after agent "a"
deployed successfully, the run returns a deployment error but the trace
contains no `StopAll` — the successfully deployed agent is not stopped
before the result is returned. -/
theorem stopAll_skipped_on_deploy_failure :
    (Run envDeployFail none sDeployFail).2 =
      [Event.evDeploy "a" true, Event.evDeploy "b" false] ∧
    (Run envDeployFail none sDeployFail).1.error = some "deploying agent b: boom" ∧
    (envDeployFail.deployOp "a").err = none ∧
    Event.evStopAll ∉ (Run envDeployFail none sDeployFail).2 := by
  decide

/-- C1 (amended): once the deployment loop completes without error, the
deferred `StopAll` is registered, and therefore runs on every later exit
path (setup failure, trigger failure, convergence failure, success) before
the result is returned; when an agent fails to deploy mid-loop, the defer
is never registered and earlier agents are not stopped. -/
theorem stopAll_on_every_path_after_deployment (env : RunEnv) (parent : Option Nat)
    (s : Scenario) (hce : env.ensureClientsErr = none)
    (hd : (deployAgents env (runDeadline parent s) s.agents 0).2.2 = none) :
    Event.evStopAll ∈ (Run env parent s).2 := by
  unfold Run
  rw [hce]
  dsimp only
  rcases hda : deployAgents env (runDeadline parent s) s.agents 0 with ⟨now1, devs, dres⟩
  rw [hda] at hd
  simp at hd
  subst hd
  dsimp only
  rcases applySetup env (runDeadline parent s) s.setup.manifests now1
    with ⟨now2, sevs, sres⟩
  cases sres with
  | some e => simp
  | none =>
      dsimp only
      rcases applyTrigger env (runDeadline parent s) s.trigger now2 with ⟨now3, tevs, tres⟩
      cases tres with
      | some e => simp
      | none =>
          dsimp only
          rcases waitForExpectations
              (fun t => checkAllExpectations (env.fetchAt (now3 + t)) s.expect)
              (runDeadline parent s - now3) with ⟨w, werr⟩
          cases werr with
          | some e => simp
          | none => simp

/-- An environment where all deploys succeed but applying manifest "m"
fails. -/
def envSetupFail : RunEnv where
  ensureClientsErr := none
  deployOp := fun _ => ⟨0, none⟩
  manifestOp := fun _ => ⟨0, some "denied"⟩
  patchOp := ⟨0, none⟩
  fetchAt := fun _ _ => .error "not found"
  collect := none

/-- A scenario whose only manifest fails to apply. -/
def sSetupFail : Scenario where
  name := "setup-fail"
  description := ""
  agents := ["a"]
  setup := ⟨["m"]⟩
  trigger := none
  expect := []
  timeout := 10

/-- Witness for C1 (amended): with deployment successful and setup
failing, the cleanup runs before the result is returned. -/
theorem stopAll_on_every_path_after_deployment_witness :
    (deployAgents envSetupFail (runDeadline none sSetupFail) sSetupFail.agents 0).2.2 =
      none ∧
    Event.evStopAll ∈ (Run envSetupFail none sSetupFail).2 :=
  ⟨by decide,
   stopAll_on_every_path_after_deployment envSetupFail none sSetupFail rfl (by decide)⟩

/-- An environment whose agent deployment takes 2 seconds and would
otherwise succeed, with everything else instant. -/
def envSlowDeploy : RunEnv where
  ensureClientsErr := none
  deployOp := fun _ => ⟨2, none⟩
  manifestOp := fun _ => ⟨0, none⟩
  patchOp := ⟨0, none⟩
  fetchAt := fun _ _ => .ok stuckDoc
  collect := none

/-- A scenario with a 1-second convergence timeout. -/
def sTight : Scenario where
  name := "tight"
  description := ""
  agents := ["a"]
  setup := ⟨[]⟩
  trigger := none
  expect := []
  timeout := 1

/-- The same scenario with a 10-second convergence timeout. -/
def sLoose : Scenario where
  name := "loose"
  description := ""
  agents := ["a"]
  setup := ⟨[]⟩
  trigger := none
  expect := []
  timeout := 10

/-- Counterexample for C2: with the scenario timeout set to 1 second, a
2-second agent deployment whose own result is success is aborted with a
context-deadline error, while the identical run with a 10-second timeout
passes — the convergence timeout bounds the deployment stage, not just
the await-convergence stage. -/
theorem deploy_aborted_by_convergence_timeout :
    (Run envSlowDeploy none sTight).1.error =
      some "deploying agent a: context deadline exceeded" ∧
    (envSlowDeploy.deployOp "a").err = none ∧
    (Run envSlowDeploy none sLoose).1.passed = true := by
  decide

/-- C2 (amended): `Engine.Run` creates the timeout context before any
stage executes, so the scenario timeout also bounds setup, deployment and
trigger: an agent deployment that runs past the scenario timeout is
aborted with a context-deadline-exceeded deployment error. -/
theorem run_deadline_bounds_deployment (env : RunEnv) (s : Scenario) (a : String)
    (rest : List String) (hce : env.ensureClientsErr = none) (ha : s.agents = a :: rest)
    (ht : s.timeout ≠ 0) (hd : s.timeout < (env.deployOp a).dur) :
    (Run env none s).1.error =
      some ("deploying agent " ++ a ++ ": context deadline exceeded") := by
  have hrd : runDeadline none s = s.timeout := by
    unfold runDeadline runTimeout
    rw [if_neg ht]
  have hinv : invoke (runDeadline none s) 0 (env.deployOp a) =
      (max 0 (runDeadline none s), some "context deadline exceeded") := by
    unfold invoke
    rw [hrd, if_neg (by omega)]
  have hda : deployAgents env (runDeadline none s) s.agents 0 =
      (max 0 (runDeadline none s), [Event.evDeploy a false],
        some ("deploying agent " ++ a ++ ": context deadline exceeded")) := by
    rw [ha]
    rw [deployAgents, hinv]
    dsimp only
    rw [String.append_assoc]
    rfl
  unfold Run
  rw [hce]
  dsimp only
  rw [hda]

/-- Witness for C2 (amended): the 1-second-timeout scenario aborts its
2-second deployment with a context-deadline error. -/
theorem run_deadline_bounds_deployment_witness :
    sTight.timeout ≠ 0 ∧ sTight.timeout < (envSlowDeploy.deployOp "a").dur ∧
    (Run envSlowDeploy none sTight).1.error =
      some ("deploying agent " ++ "a" ++ ": context deadline exceeded") :=
  ⟨by decide, by decide,
   run_deadline_bounds_deployment envSlowDeploy sTight "a" [] rfl rfl
     (by decide) (by decide)⟩

/-- An environment in which every external operation succeeds instantly. -/
def envAllOk : RunEnv where
  ensureClientsErr := none
  deployOp := fun _ => ⟨0, none⟩
  manifestOp := fun _ => ⟨0, none⟩
  patchOp := ⟨0, none⟩
  fetchAt := fun _ _ => .ok stuckDoc
  collect := none

/-- A scenario with one agent and one setup manifest. -/
def sOneOfEach : Scenario where
  name := "one-of-each"
  description := ""
  agents := ["a"]
  setup := ⟨["m"]⟩
  trigger := none
  expect := []
  timeout := 10

/-- Counterexample for C3: in a successful run with one agent and one
setup manifest, the agent deployment is the first trace event and the
setup-manifest application only the second — agent deployment precedes
the application of the setup manifests, contradicting the claimed
setup-first ordering. -/
theorem deployment_precedes_setup_in_trace :
    (Run envAllOk none sOneOfEach).2 =
      [Event.evDeploy "a" true, Event.evManifest "m", Event.evWait, Event.evStopAll] ∧
    (Run envAllOk none sOneOfEach).2[0]? = some (Event.evDeploy "a" true) ∧
    (Run envAllOk none sOneOfEach).2[1]? = some (Event.evManifest "m") := by
  decide

/-- A collector whose Kubernetes client cannot be constructed. -/
def envCollectNoClient : CollectEnv where
  clientErr := some "building kubeconfig: invalid configuration"
  logsFor := fun _ => .ok ""
  eventsList := .ok []

/-- The diagnostics scope of the concrete collector examples. -/
def scopeOneAgent : Scope := ⟨"default", ["scaling-agent"]⟩

/-- Counterexample for C9: when the collector's Kubernetes client cannot
be constructed, `ClusterCollector.Collect` returns that error to its
caller instead of a report. -/
theorem collect_returns_error_on_client_failure :
    clusterCollect envCollectNoClient scopeOneAgent =
      .error "building kubeconfig: invalid configuration" := rfl

/-- C9 (amended): once the Kubernetes client is available,
`ClusterCollector.Collect` never returns an error: a per-agent log-fetch
failure is recorded as an inline placeholder message for that agent, and
an events-listing failure sets the report-level collection-error field and
leaves the events list empty.  Only a failure to construct the client
itself is returned as an error (which the engine's `collectDiagnostics`
then folds into a report-level collection error). -/
theorem collect_never_errors_given_client (env : CollectEnv) (scope : Scope)
    (h : env.clientErr = none) :
    ∃ r, clusterCollect env scope = .ok r ∧
      (∀ a err, a ∈ scope.agentNames → env.logsFor a = .error err →
        (a, "error collecting logs: " ++ err) ∈ r.agentLogs) ∧
      (∀ e, env.eventsList = .error e →
        r.collectionError = "listing events: " ++ e ∧ r.events = []) := by
  unfold clusterCollect
  rw [h]
  dsimp only
  cases hev : env.eventsList with
  | error e =>
      refine ⟨_, rfl, ?_, ?_⟩
      · intro a err ha hlog
        refine List.mem_map.mpr ⟨a, ha, ?_⟩
        rw [hlog]
      · intro e2 he2
        injection he2 with he2
        subst he2
        exact ⟨rfl, rfl⟩
  | ok items =>
      refine ⟨_, rfl, ?_, ?_⟩
      · intro a err ha hlog
        refine List.mem_map.mpr ⟨a, ha, ?_⟩
        rw [hlog]
      · intro e2 he2
        exact Except.noConfusion he2

/-- A collector whose client works but whose log fetch and event listing
both fail. -/
def envCollectPartial : CollectEnv where
  clientErr := none
  logsFor := fun _ => .error "pods list forbidden"
  eventsList := .error "events forbidden"

/-- Witness for C9 (amended): with a working client but failing log and
event calls, collection still succeeds, inlining the per-agent failure and
recording the events failure in the collection-error field. -/
theorem collect_never_errors_given_client_witness :
    ∃ r, clusterCollect envCollectPartial scopeOneAgent = .ok r ∧
      (∀ a err, a ∈ scopeOneAgent.agentNames → envCollectPartial.logsFor a = .error err →
        (a, "error collecting logs: " ++ err) ∈ r.agentLogs) ∧
      (∀ e, envCollectPartial.eventsList = .error e →
        r.collectionError = "listing events: " ++ e ∧ r.events = []) :=
  collect_never_errors_given_client envCollectPartial scopeOneAgent rfl

end KubeAgents
